import Mathlib

/-
Verification development for the video-processing worker core.

Shallow embedding of the Go sources:
  - server/pubsub/redis.go         (durable queue client, progress bus)
  - the Redis-streams worker        (processVideoStreaming, getTargetResolutions,
                                     estimateBandwidth, generateAndUploadMasterPlaylist)
  - server/cmd/worker/main.go       (batch worker variant: filterRenditions)
  - the models package              (Video, VideoJob, ProcessingProgress)

External collaborators (ffprobe, ffmpeg, MinIO, Postgres, Redis) are modelled as
oracles: the pure control flow of the worker is embedded faithfully, and the
outcomes of collaborator calls are inputs to the embedded functions.
-/

namespace VideoProc

/-- Status enumeration of a video asset. The models package spells the initial
state "pending" in one revision and "waiting" in the revision the API uses
(models.StatusWaiting); the spec calls it waiting. -/
inductive VideoStatus where
  | waiting
  | processing
  | completed
  | failed
deriving DecidableEq, Repr

/-- Queue entry payload (models.VideoJob). -/
structure VideoJob where
  videoID : String
  s3Path : String
  originalName : String
deriving DecidableEq, Repr

/-! ## Rendition ladder selection (getTargetResolutions, filterRenditions) -/

/-- The fixed descending list of standard heights used by getTargetResolutions. -/
def standardResolutions : List Int := [2160, 1440, 1080, 720, 480, 360, 240, 144]

/-- The scan of getTargetResolutions: the Go loop finds the index of the first
standard resolution at most sourceHeight and then takes the slice from that
index; we return that suffix directly (none when no entry qualifies, which is
exactly the startIdx == -1 case). -/
def findStartSuffix (sourceHeight : Int) : List Int → Option (List Int)
  | [] => none
  | r :: rest =>
      if r ≤ sourceHeight then some (r :: rest) else findStartSuffix sourceHeight rest

/-- getTargetResolutions from the Redis-streams worker. -/
def getTargetResolutions (sourceHeight : Int) : List Int :=
  match findStartSuffix sourceHeight standardResolutions with
  | some tl => tl
  | none => [sourceHeight]

/-- Rendition preset of the batch worker (server/cmd/worker/main.go). -/
structure Rendition where
  height : Int
  bitrate : Int
  maxRate : Int
  bufSize : Int
  audioRate : Int
deriving DecidableEq, Repr

/-- The package-level renditions table of the batch worker. -/
def renditions : List Rendition :=
  [ { height := 2160, bitrate := 16000, maxRate := 17600, bufSize := 24000, audioRate := 256 },
    { height := 1440, bitrate := 9000, maxRate := 9900, bufSize := 13500, audioRate := 256 },
    { height := 1080, bitrate := 5000, maxRate := 5350, bufSize := 7500, audioRate := 192 },
    { height := 720, bitrate := 2800, maxRate := 2996, bufSize := 4200, audioRate := 160 },
    { height := 480, bitrate := 1400, maxRate := 1498, bufSize := 2100, audioRate := 128 },
    { height := 360, bitrate := 800, maxRate := 856, bufSize := 1200, audioRate := 128 },
    { height := 240, bitrate := 500, maxRate := 535, bufSize := 750, audioRate := 96 },
    { height := 144, bitrate := 300, maxRate := 321, bufSize := 450, audioRate := 96 } ]

/-- The selection loop of filterRenditions: append each preset whose height does
not exceed the source height. -/
def selectLoop (sourceHeight : Int) : List Rendition → List Rendition
  | [] => []
  | r :: rest =>
      if r.height ≤ sourceHeight then r :: selectLoop sourceHeight rest
      else selectLoop sourceHeight rest

/-- filterRenditions from the batch worker: keep the presets not exceeding the
source height, or synthesize one custom rendition when none qualifies. -/
def filterRenditions (sourceHeight : Int) : List Rendition :=
  let selected := selectLoop sourceHeight renditions
  if selected = [] then
    [ { height := sourceHeight
        bitrate := sourceHeight * 2
        maxRate := sourceHeight * 2 + 200
        bufSize := sourceHeight * 3
        audioRate := 96 } ]
  else selected

/-! ## Bandwidth estimate (estimateBandwidth) -/

/-- estimateBandwidth: fixed lookup for the standard rungs, height times 2500
for any other height. -/
def estimateBandwidth (height : Int) : Int :=
  if height = 2160 then 8000000
  else if height = 1440 then 6000000
  else if height = 1080 then 5000000
  else if height = 720 then 2800000
  else if height = 480 then 1400000
  else if height = 360 then 800000
  else if height = 240 then 500000
  else if height = 144 then 300000
  else height * 2500

/-! ## Ladder selection lemmas -/

/-- Case analysis on the source height: the selected ladder never upscales, it
is the suffix of the standard list left after dropping the heights above the
source (or the single custom rendition when nothing qualifies), and the batch
worker's filterRenditions selects the same heights. -/
lemma ladder_cases (h : Int) :
    (∀ x ∈ getTargetResolutions h, x ≤ h)
    ∧ ((∃ pre, pre ++ getTargetResolutions h = standardResolutions ∧ ∀ x ∈ pre, h < x)
        ∨ ((∀ x ∈ standardResolutions, h < x) ∧ getTargetResolutions h = [h]))
    ∧ (filterRenditions h).map Rendition.height = getTargetResolutions h := by
  by_cases c1 : (2160 : Int) ≤ h
  · have e : getTargetResolutions h = [2160, 1440, 1080, 720, 480, 360, 240, 144] := by
      simp [getTargetResolutions, findStartSuffix, standardResolutions, c1]
    have c2 : (1440 : Int) ≤ h := by omega
    have c3 : (1080 : Int) ≤ h := by omega
    have c4 : (720 : Int) ≤ h := by omega
    have c5 : (480 : Int) ≤ h := by omega
    have c6 : (360 : Int) ≤ h := by omega
    have c7 : (240 : Int) ≤ h := by omega
    have c8 : (144 : Int) ≤ h := by omega
    have sel : filterRenditions h = renditions := by
      simp [filterRenditions, selectLoop, renditions, c1, c2, c3, c4, c5, c6, c7, c8]
    refine ⟨?_, Or.inl ⟨[], by simp [e, standardResolutions], by simp⟩, ?_⟩
    · rw [e]; intro x hx; simp at hx
      rcases hx with rfl | rfl | rfl | rfl | rfl | rfl | rfl | rfl <;> omega
    · rw [sel, e]; decide
  by_cases c2 : (1440 : Int) ≤ h
  · have e : getTargetResolutions h = [1440, 1080, 720, 480, 360, 240, 144] := by
      simp [getTargetResolutions, findStartSuffix, standardResolutions, c1, c2]
    have c3 : (1080 : Int) ≤ h := by omega
    have c4 : (720 : Int) ≤ h := by omega
    have c5 : (480 : Int) ≤ h := by omega
    have c6 : (360 : Int) ≤ h := by omega
    have c7 : (240 : Int) ≤ h := by omega
    have c8 : (144 : Int) ≤ h := by omega
    have sel : filterRenditions h = renditions.drop 1 := by
      simp [filterRenditions, selectLoop, renditions, c1, c2, c3, c4, c5, c6, c7, c8]
    refine ⟨?_, Or.inl ⟨[2160], by simp [e, standardResolutions],
      by intro x hx; simp at hx; omega⟩, ?_⟩
    · rw [e]; intro x hx; simp at hx
      rcases hx with rfl | rfl | rfl | rfl | rfl | rfl | rfl <;> omega
    · rw [sel, e]; decide
  by_cases c3 : (1080 : Int) ≤ h
  · have e : getTargetResolutions h = [1080, 720, 480, 360, 240, 144] := by
      simp [getTargetResolutions, findStartSuffix, standardResolutions, c1, c2, c3]
    have c4 : (720 : Int) ≤ h := by omega
    have c5 : (480 : Int) ≤ h := by omega
    have c6 : (360 : Int) ≤ h := by omega
    have c7 : (240 : Int) ≤ h := by omega
    have c8 : (144 : Int) ≤ h := by omega
    have sel : filterRenditions h = renditions.drop 2 := by
      simp [filterRenditions, selectLoop, renditions, c1, c2, c3, c4, c5, c6, c7, c8]
    refine ⟨?_, Or.inl ⟨[2160, 1440], by simp [e, standardResolutions],
      by intro x hx; simp at hx; rcases hx with rfl | rfl <;> omega⟩, ?_⟩
    · rw [e]; intro x hx; simp at hx
      rcases hx with rfl | rfl | rfl | rfl | rfl | rfl <;> omega
    · rw [sel, e]; decide
  by_cases c4 : (720 : Int) ≤ h
  · have e : getTargetResolutions h = [720, 480, 360, 240, 144] := by
      simp [getTargetResolutions, findStartSuffix, standardResolutions, c1, c2, c3, c4]
    have c5 : (480 : Int) ≤ h := by omega
    have c6 : (360 : Int) ≤ h := by omega
    have c7 : (240 : Int) ≤ h := by omega
    have c8 : (144 : Int) ≤ h := by omega
    have sel : filterRenditions h = renditions.drop 3 := by
      simp [filterRenditions, selectLoop, renditions, c1, c2, c3, c4, c5, c6, c7, c8]
    refine ⟨?_, Or.inl ⟨[2160, 1440, 1080], by simp [e, standardResolutions],
      by intro x hx; simp at hx; rcases hx with rfl | rfl | rfl <;> omega⟩, ?_⟩
    · rw [e]; intro x hx; simp at hx
      rcases hx with rfl | rfl | rfl | rfl | rfl <;> omega
    · rw [sel, e]; decide
  by_cases c5 : (480 : Int) ≤ h
  · have e : getTargetResolutions h = [480, 360, 240, 144] := by
      simp [getTargetResolutions, findStartSuffix, standardResolutions, c1, c2, c3, c4, c5]
    have c6 : (360 : Int) ≤ h := by omega
    have c7 : (240 : Int) ≤ h := by omega
    have c8 : (144 : Int) ≤ h := by omega
    have sel : filterRenditions h = renditions.drop 4 := by
      simp [filterRenditions, selectLoop, renditions, c1, c2, c3, c4, c5, c6, c7, c8]
    refine ⟨?_, Or.inl ⟨[2160, 1440, 1080, 720], by simp [e, standardResolutions],
      by intro x hx; simp at hx; rcases hx with rfl | rfl | rfl | rfl <;> omega⟩, ?_⟩
    · rw [e]; intro x hx; simp at hx
      rcases hx with rfl | rfl | rfl | rfl <;> omega
    · rw [sel, e]; decide
  by_cases c6 : (360 : Int) ≤ h
  · have e : getTargetResolutions h = [360, 240, 144] := by
      simp [getTargetResolutions, findStartSuffix, standardResolutions, c1, c2, c3, c4, c5, c6]
    have c7 : (240 : Int) ≤ h := by omega
    have c8 : (144 : Int) ≤ h := by omega
    have sel : filterRenditions h = renditions.drop 5 := by
      simp [filterRenditions, selectLoop, renditions, c1, c2, c3, c4, c5, c6, c7, c8]
    refine ⟨?_, Or.inl ⟨[2160, 1440, 1080, 720, 480], by simp [e, standardResolutions],
      by intro x hx; simp at hx; rcases hx with rfl | rfl | rfl | rfl | rfl <;> omega⟩, ?_⟩
    · rw [e]; intro x hx; simp at hx
      rcases hx with rfl | rfl | rfl <;> omega
    · rw [sel, e]; decide
  by_cases c7 : (240 : Int) ≤ h
  · have e : getTargetResolutions h = [240, 144] := by
      simp [getTargetResolutions, findStartSuffix, standardResolutions, c1, c2, c3, c4, c5, c6, c7]
    have c8 : (144 : Int) ≤ h := by omega
    have sel : filterRenditions h = renditions.drop 6 := by
      simp [filterRenditions, selectLoop, renditions, c1, c2, c3, c4, c5, c6, c7, c8]
    refine ⟨?_, Or.inl ⟨[2160, 1440, 1080, 720, 480, 360], by simp [e, standardResolutions],
      by intro x hx; simp at hx; rcases hx with rfl | rfl | rfl | rfl | rfl | rfl <;> omega⟩, ?_⟩
    · rw [e]; intro x hx; simp at hx
      rcases hx with rfl | rfl <;> omega
    · rw [sel, e]; decide
  by_cases c8 : (144 : Int) ≤ h
  · have e : getTargetResolutions h = [144] := by
      simp [getTargetResolutions, findStartSuffix, standardResolutions,
        c1, c2, c3, c4, c5, c6, c7, c8]
    have sel : filterRenditions h = renditions.drop 7 := by
      simp [filterRenditions, selectLoop, renditions, c1, c2, c3, c4, c5, c6, c7, c8]
    refine ⟨?_, Or.inl ⟨[2160, 1440, 1080, 720, 480, 360, 240], by simp [e, standardResolutions],
      by intro x hx; simp at hx
         rcases hx with rfl | rfl | rfl | rfl | rfl | rfl | rfl <;> omega⟩, ?_⟩
    · rw [e]; intro x hx; simp at hx; omega
    · rw [sel, e]; decide
  · have e : getTargetResolutions h = [h] := by
      simp [getTargetResolutions, findStartSuffix, standardResolutions,
        c1, c2, c3, c4, c5, c6, c7, c8]
    have sel : filterRenditions h =
        [ { height := h, bitrate := h * 2, maxRate := h * 2 + 200,
            bufSize := h * 3, audioRate := 96 } ] := by
      simp [filterRenditions, selectLoop, renditions, c1, c2, c3, c4, c5, c6, c7, c8]
    refine ⟨?_, Or.inr ⟨?_, e⟩, ?_⟩
    · rw [e]; intro x hx; simp at hx; omega
    · intro x hx; simp [standardResolutions] at hx
      rcases hx with rfl | rfl | rfl | rfl | rfl | rfl | rfl | rfl <;> omega
    · rw [sel, e]; simp

/-- C2: for every source height the ladder is exactly the contiguous suffix of
the fixed descending standard list whose members are at most the source height,
falling back to the single custom rendition [sourceHeight] when no standard
height qualifies; the three spec examples hold, no selected height exceeds the
source height, and the batch worker's filterRenditions selects the same
heights. -/
theorem claim_C2_ladder_selection (h : Int) :
    (∀ x ∈ getTargetResolutions h, x ≤ h)
    ∧ ((∃ pre, pre ++ getTargetResolutions h = standardResolutions ∧ ∀ x ∈ pre, h < x)
        ∨ ((∀ x ∈ standardResolutions, h < x) ∧ getTargetResolutions h = [h]))
    ∧ (filterRenditions h).map Rendition.height = getTargetResolutions h
    ∧ getTargetResolutions 2160 = [2160, 1440, 1080, 720, 480, 360, 240, 144]
    ∧ getTargetResolutions 900 = [720, 480, 360, 240, 144]
    ∧ getTargetResolutions 100 = [100] := by
  obtain ⟨a, b, c⟩ := ladder_cases h
  exact ⟨a, b, c, by decide, by decide, by decide⟩

/-! ## Bandwidth estimate theorems -/

/-- C8 counterexample: the estimator is not monotone across the standard and
custom families; the custom height 1100 sits above the standard rung 1080 yet
gets a strictly smaller estimate (2750000 versus 5000000). -/
theorem claim_C8_counterexample :
    (1080 : Int) < 1100 ∧ estimateBandwidth 1100 < estimateBandwidth 1080 := by
  decide

/-- C8 amended: the bandwidth estimate is monotone in the height within each
family: whenever h1 < h2 and the two heights are both standard rungs, or both
custom (resolved by height times 2500), the estimates are ordered. -/
theorem claim_C8_monotone_within_family (h1 h2 : Int) (hlt : h1 < h2)
    (hsame : (h1 ∈ standardResolutions ∧ h2 ∈ standardResolutions)
      ∨ (h1 ∉ standardResolutions ∧ h2 ∉ standardResolutions)) :
    estimateBandwidth h1 ≤ estimateBandwidth h2 := by
  rcases hsame with ⟨m1, m2⟩ | ⟨n1, n2⟩
  · simp [standardResolutions] at m1 m2
    rcases m1 with rfl | rfl | rfl | rfl | rfl | rfl | rfl | rfl <;>
      rcases m2 with rfl | rfl | rfl | rfl | rfl | rfl | rfl | rfl <;>
      revert hlt <;> decide
  · simp [standardResolutions] at n1 n2
    obtain ⟨a1, a2, a3, a4, a5, a6, a7, a8⟩ := n1
    obtain ⟨b1, b2, b3, b4, b5, b6, b7, b8⟩ := n2
    simp [estimateBandwidth, a1, a2, a3, a4, a5, a6, a7, a8, b1, b2, b3, b4, b5, b6, b7, b8]
    omega

/-- Witness for the amended C8 statement at the standard pair 240 and 1080. -/
theorem claim_C8_witness :
    (240 : Int) < 1080 ∧ estimateBandwidth 240 ≤ estimateBandwidth 1080 :=
  ⟨by decide, claim_C8_monotone_within_family 240 1080 (by decide)
    (Or.inl ⟨by decide, by decide⟩)⟩

/-! ## Persistent video record and gorm struct updates -/

/-- Persistent video asset row (models.Video of the revision the streaming
worker uses). status is Option because the zero value of the Go string type is
the empty string; errorMessage and completedAt are pointer fields in Go, none
models the nil pointer. duration is float64 in Go; its value is never inspected
by any claim, so it is carried as an integer. Wall-clock timestamp columns
(created at, updated at) are not modelled. -/
structure Video where
  id : String
  originalName : String
  s3Path : String
  status : Option VideoStatus
  sourceWidth : Int
  sourceHeight : Int
  duration : Int
  errorMessage : Option String
  completedAt : Option Unit
  masterPlaylistKey : Option String
  masterPlaylistURL : Option String
deriving DecidableEq, Repr

/-- The all-zero models.Video value: a Go struct literal leaves every
unmentioned field at its zero value. -/
def zeroVideo : Video :=
  { id := "", originalName := "", s3Path := "", status := none, sourceWidth := 0,
    sourceHeight := 0, duration := 0, errorMessage := none, completedAt := none,
    masterPlaylistKey := none, masterPlaylistURL := none }

/-- gorm Updates called with a struct argument: only fields holding a non-zero
value are written, so a nil pointer or an empty string in the update struct
leaves the stored column untouched. -/
def updatesVideo (v u : Video) : Video where
  id := if u.id = "" then v.id else u.id
  originalName := if u.originalName = "" then v.originalName else u.originalName
  s3Path := if u.s3Path = "" then v.s3Path else u.s3Path
  status := match u.status with | none => v.status | some s => some s
  sourceWidth := if u.sourceWidth = 0 then v.sourceWidth else u.sourceWidth
  sourceHeight := if u.sourceHeight = 0 then v.sourceHeight else u.sourceHeight
  duration := if u.duration = 0 then v.duration else u.duration
  errorMessage := match u.errorMessage with | none => v.errorMessage | some e => some e
  completedAt := match u.completedAt with | none => v.completedAt | some t => some t
  masterPlaylistKey :=
    match u.masterPlaylistKey with | none => v.masterPlaylistKey | some k => some k
  masterPlaylistURL :=
    match u.masterPlaylistURL with | none => v.masterPlaylistURL | some k => some k

/-! ## Progress events and the worker pipeline -/

/-- models.ProcessingProgress of the streaming worker revision: message is a
pointer field there. The wall-clock timestamp is not modelled. -/
structure ProcessingProgress where
  videoID : String
  status : VideoStatus
  currentResolution : Int := 0
  totalResolutions : Nat := 0
  progress : Int := 0
  message : Option String := none
deriving DecidableEq, Repr

/-- ffprobe output (VideoMetadata). duration is float64 in Go, carried as an
integer since no claim inspects it. -/
structure VideoMetadata where
  width : Int
  height : Int
  duration : Int
  bitrate : Int
deriving DecidableEq, Repr

/-- Outcome of the ffmpeg run plus segment uploads inside transcodeToHLS,
supplied by the transcoder and object-store collaborators. -/
structure TranscodeArtifacts where
  segmentCount : Nat
  totalSize : Int
deriving DecidableEq, Repr

/-- Per-rendition record (the Go ResolutionInfo struct and the persisted
VideoResolution row carry the same data). The Resolution label is the height;
the Go code renders it as the string height followed by p. -/
structure ResolutionInfo where
  height : Int
  bandwidth : Int
  playlistKey : String
  segmentCount : Nat
  totalSize : Int
deriving DecidableEq, Repr

/-- Observable side effects of one pipeline run, in program order. -/
inductive Action where
  | updateDB (u : Video)
  | publish (e : ProcessingProgress)
  | transcodeStart (height : Int)
  | createResolution (r : ResolutionInfo)
  | uploadMaster (sorted : List ResolutionInfo)
deriving DecidableEq, Repr

/-- The VideoResolution record transcodeToHLS builds for one rendition. -/
def infoOf (videoID : String) (height : Int) (art : TranscodeArtifacts) : ResolutionInfo :=
  { height := height
    bandwidth := estimateBandwidth height
    playlistKey := s!"{videoID}/processed/{height}p/playlist.m3u8"
    segmentCount := art.segmentCount
    totalSize := art.totalSize }

/-- transcodeToHLS for one target height: run ffmpeg and the uploads (the
oracle), then estimate bandwidth and create the VideoResolution row. -/
def transcodeToHLS (tc : Int → Except String TranscodeArtifacts) (videoID : String)
    (height : Int) : Except String ResolutionInfo × List Action :=
  match tc height with
  | .error e => (.error e, [])
  | .ok art => (.ok (infoOf videoID height art), [.createResolution (infoOf videoID height art)])

/-- The progress event published before starting the rendition at zero-based
index i; the percent is 5 plus the integer division of i times 90 by the
rendition count. -/
def preEventOf (videoID : String) (res : Int) (total i : Nat) : ProcessingProgress :=
  { videoID := videoID, status := .processing, currentResolution := res,
    totalResolutions := total, progress := ((5 + (i * 90) / total : Nat) : Int),
    message := some s!"Processing {res}p ({i + 1}/{total})..." }

/-- The failed-status row update written on a job-level failure. -/
def failUpdateOf (msg : String) : Video :=
  { zeroVideo with status := some .failed, errorMessage := some msg }

/-- The failed-status progress event published on a job-level failure. -/
def failEventOf (videoID : String) (pct : Int) (msg : String) : ProcessingProgress :=
  { videoID := videoID, status := .failed, progress := pct, message := some msg }

/-- The per-rendition loop of processVideoStreaming: publish the progress event,
invoke transcodeToHLS, and on failure mark the asset failed and stop. total is
the length of the full rendition list, i the zero-based loop index. -/
def renditionLoop (videoID : String) (tc : Int → Except String TranscodeArtifacts)
    (total : Nat) :
    List Int → Nat → List Action × List ResolutionInfo × Except String Unit
  | [], _ => ([], [], .ok ())
  | res :: rest, i =>
      match transcodeToHLS tc videoID res with
      | (.error e, acts) =>
          let errMsg := s!"failed to transcode {res}p: {e}"
          ([.publish (preEventOf videoID res total i), .transcodeStart res] ++ acts ++
            [.updateDB (failUpdateOf errMsg),
             .publish (failEventOf videoID ((5 + (i * 90) / total : Nat) : Int) errMsg)],
           [], .error errMsg)
      | (.ok info, acts) =>
          let next := renditionLoop videoID tc total rest (i + 1)
          ([.publish (preEventOf videoID res total i), .transcodeStart res] ++ acts ++ next.1,
           info :: next.2.1, next.2.2)

/-- Ordered insert for the descending-bandwidth order. -/
def insertByBandwidth (x : ResolutionInfo) : List ResolutionInfo → List ResolutionInfo
  | [] => [x]
  | y :: ys =>
      if y.bandwidth ≤ x.bandwidth then x :: y :: ys else y :: insertByBandwidth x ys

/-- sort.Slice with the strict greater-bandwidth comparator; the Go sort is an
unspecified in-place sort whose result is some permutation ordered by the
comparator, modelled here by insertion sort under the complementary at-most
relation. -/
def sortByBandwidthDesc : List ResolutionInfo → List ResolutionInfo
  | [] => []
  | x :: xs => insertByBandwidth x (sortByBandwidthDesc xs)

/-- Ordered insertion yields a permutation of the cons. -/
lemma insertByBandwidth_perm (x : ResolutionInfo) :
    ∀ l : List ResolutionInfo, (insertByBandwidth x l).Perm (x :: l) := by
  intro l
  induction l with
  | nil => simp [insertByBandwidth]
  | cons y ys ih =>
      by_cases hy : y.bandwidth ≤ x.bandwidth
      · simp [insertByBandwidth, hy]
      · simp only [insertByBandwidth, hy, if_false]
        exact (ih.cons y).trans (List.Perm.swap x y ys)

/-- The sort yields a permutation of its input. -/
lemma sortByBandwidthDesc_perm :
    ∀ l : List ResolutionInfo, (sortByBandwidthDesc l).Perm l := by
  intro l
  induction l with
  | nil => simp [sortByBandwidthDesc]
  | cons x xs ih =>
      exact (insertByBandwidth_perm x (sortByBandwidthDesc xs)).trans (ih.cons x)

/-- Ordered insertion preserves the descending-bandwidth ordering. -/
lemma insertByBandwidth_sorted (x : ResolutionInfo) :
    ∀ l : List ResolutionInfo,
      l.Pairwise (fun a b => b.bandwidth ≤ a.bandwidth) →
      (insertByBandwidth x l).Pairwise (fun a b => b.bandwidth ≤ a.bandwidth) := by
  intro l
  induction l with
  | nil => intro _; simp [insertByBandwidth]
  | cons y ys ih =>
      intro hs
      rw [List.pairwise_cons] at hs
      by_cases hy : y.bandwidth ≤ x.bandwidth
      · simp only [insertByBandwidth, hy, if_true]
        rw [List.pairwise_cons]
        refine ⟨?_, List.pairwise_cons.mpr hs⟩
        intro b hb
        rcases List.mem_cons.mp hb with rfl | hb2
        · exact hy
        · exact le_trans (hs.1 b hb2) hy
      · simp only [insertByBandwidth, hy, if_false]
        rw [List.pairwise_cons]
        refine ⟨?_, ih hs.2⟩
        intro b hb
        have hb2 := (insertByBandwidth_perm x ys).mem_iff.mp hb
        rcases List.mem_cons.mp hb2 with rfl | hb3
        · omega
        · exact hs.1 b hb3

/-- The sort orders by weakly descending bandwidth. -/
lemma sortByBandwidthDesc_sorted :
    ∀ l : List ResolutionInfo,
      (sortByBandwidthDesc l).Pairwise (fun a b => b.bandwidth ≤ a.bandwidth) := by
  intro l
  induction l with
  | nil => simp [sortByBandwidthDesc]
  | cons x xs ih => exact insertByBandwidth_sorted x (sortByBandwidthDesc xs) ih

/-- The row update recording the master playlist location. -/
def masterKeyUpdateOf (videoID : String) : Video :=
  { zeroVideo with
    masterPlaylistKey := some s!"{videoID}/processed/master.m3u8"
    masterPlaylistURL := some "presigned" }

/-- generateAndUploadMasterPlaylist: sort the renditions by descending
bandwidth, upload the manifest, then record its location on the video row. -/
def generateAndUploadMasterPlaylist (videoID : String) (upload : Except String Unit)
    (infos : List ResolutionInfo) : List Action × Except String Unit :=
  match upload with
  | .error e => ([], .error s!"failed to upload master playlist: {e}")
  | .ok _ =>
      ([.uploadMaster (sortByBandwidthDesc infos), .updateDB (masterKeyUpdateOf videoID)],
       .ok ())

/-- The processing-status row update issued at the start of a run. In the Go
source this Updates struct also names ErrorMessage nil; nil is the zero value
of the pointer field, so the Updates call leaves the error column untouched and
the field does not appear in the update. -/
def processingUpdate : Video := { zeroVideo with status := some .processing }

/-- The initial progress event of a run. -/
def startEventOf (vid : String) : ProcessingProgress :=
  { videoID := vid, status := .processing, progress := 0,
    message := some "Starting video processing..." }

/-- The row update persisting the probed source dimensions. -/
def metaUpdateOf (md : VideoMetadata) : Video :=
  { zeroVideo with
    sourceWidth := md.width
    sourceHeight := md.height
    duration := md.duration }

/-- The 5-percent setup event announcing the rendition count. -/
def countEventOf (vid : String) (n : Nat) : ProcessingProgress :=
  { videoID := vid, status := .processing, totalResolutions := n, progress := 5,
    message := some s!"Processing {n} resolutions..." }

/-- The completed-status row update, stamping the completion time. -/
def completedUpdate : Video :=
  { zeroVideo with status := some .completed, completedAt := some () }

/-- The final 100-percent completed event. -/
def doneEventOf (vid : String) : ProcessingProgress :=
  { videoID := vid, status := .completed, progress := 100,
    message := some "Processing completed successfully!" }

/-- processVideoStreaming of the streaming worker: probe, persist metadata,
select the ladder, transcode each rendition, build the master playlist, and
finalize the status. The probe, transcoder and master-upload collaborators are
oracles. -/
def processVideoStreaming (job : VideoJob)
    (probe : Except String VideoMetadata)
    (tc : Int → Except String TranscodeArtifacts)
    (masterUpload : Except String Unit) : List Action × Except String Unit :=
  match probe with
  | .error err =>
      ([.updateDB processingUpdate, .publish (startEventOf job.videoID),
        .updateDB (failUpdateOf err),
        .publish (failEventOf job.videoID 0 s!"Failed to read video metadata: {err}")],
       .error s!"failed to get video metadata: {err}")
  | .ok md =>
      let resolutions := getTargetResolutions md.height
      let n := resolutions.length
      let front : List Action :=
        [.updateDB processingUpdate, .publish (startEventOf job.videoID),
         .updateDB (metaUpdateOf md), .publish (countEventOf job.videoID n)]
      let run := renditionLoop job.videoID tc n resolutions 0
      match run.2.2 with
      | .error msg => (front ++ run.1, .error msg)
      | .ok _ =>
          let master := generateAndUploadMasterPlaylist job.videoID masterUpload run.2.1
          match master.2 with
          | .error e =>
              (front ++ run.1 ++ master.1 ++ [.updateDB (failUpdateOf e)], .error e)
          | .ok _ =>
              (front ++ run.1 ++ master.1 ++
                [.updateDB completedUpdate, .publish (doneEventOf job.videoID)],
               .ok ())

/-! ## Derived observations on a run trace -/

/-- Database state of the video row after replaying the updates of a trace. -/
def videoAfter (v0 : Video) (tr : List Action) : Video :=
  tr.foldl (fun v a => match a with | .updateDB u => updatesVideo v u | _ => v) v0

/-- Row-creation projection of one action. -/
def createdOf : Action → Option ResolutionInfo
  | .createResolution r => some r
  | _ => none

/-- The VideoResolution rows created during a trace, in creation order. -/
def createdResolutions (tr : List Action) : List ResolutionInfo :=
  tr.filterMap createdOf

/-- Master-playlist projection of one action. -/
def uploadOf : Action → Option (List ResolutionInfo)
  | .uploadMaster s => some s
  | _ => none

/-- The rendition list written to the uploaded master playlist, if the upload
happened. -/
def manifestOf (tr : List Action) : Option (List ResolutionInfo) :=
  tr.findSome? uploadOf

/-- The successive status values written to the video row during a trace. -/
def statusWrites (tr : List Action) : List VideoStatus :=
  tr.filterMap (fun a => match a with | .updateDB u => u.status | _ => none)

/-- The published progress events of a trace, in publication order. -/
def publishedEvents (tr : List Action) : List ProcessingProgress :=
  tr.filterMap (fun a => match a with | .publish e => some e | _ => none)

/-- Whether an action is the start of a transcode invocation. -/
def isStart : Action → Bool
  | .transcodeStart _ => true
  | _ => false

/-- Number of transcode invocations in a trace. -/
def countStarts (tr : List Action) : Nat := tr.countP isStart

/-- The progress events published immediately before each transcode invocation,
paired with the height being started. -/
def preStartPairs : List Action → List (ProcessingProgress × Int)
  | .publish e :: .transcodeStart r :: rest => (e, r) :: preStartPairs rest
  | _ :: rest => preStartPairs rest
  | [] => []

/-! ## Durable queue client (server/pubsub/redis.go) -/

/-- Value of one field of a stream message; parseJob only distinguishes string
values from everything else. -/
inductive FieldVal where
  | str (s : String)
  | nonString
deriving DecidableEq, Repr

/-- A Redis stream entry. -/
structure XMessage where
  id : Nat
  values : List (String × FieldVal)
deriving DecidableEq, Repr

/-- One entry of the pending entries list of a consumer group. -/
structure PendingEntry where
  id : Nat
  consumer : String
  idle : Nat
deriving DecidableEq, Repr

/-- State of the jobs stream together with its single consumer group: the log,
the pending entries list, the acknowledged ids, and the group cursor past which
entries are new. -/
structure GroupState where
  entries : List XMessage
  pending : List PendingEntry
  acked : List Nat
  lastDelivered : Nat
deriving DecidableEq, Repr

/-- parseJob: take the data field of the message values, require it to be a
string, and unmarshal it; unmarshal is the json.Unmarshal collaborator. -/
def parseJob (unmarshal : String → Option VideoJob)
    (values : List (String × FieldVal)) : Except String VideoJob :=
  match (values.find? (fun kv => kv.1 = "data")).map Prod.snd with
  | some (.str s) =>
      match unmarshal s with
      | some job => .ok job
      | none => .error "failed to unmarshal job"
  | _ => .error "missing or invalid data field"

/-- XACK: the entry stops being pending and is recorded as processed for the
group. -/
def xack (st : GroupState) (id : Nat) : GroupState :=
  { st with pending := st.pending.filter (fun p => p.id ≠ id), acked := st.acked ++ [id] }

/-- processMessage: a message that fails to parse is acknowledged anyway and
dropped; a parsed job is handed to the handler, and only a successful handler
run acknowledges the entry. -/
def processMessage (unmarshal : String → Option VideoJob)
    (handler : VideoJob → Except String Unit) (st : GroupState)
    (message : XMessage) : GroupState :=
  match parseJob unmarshal message.values with
  | .error _ => xack st message.id
  | .ok job =>
      match handler job with
      | .error _ => st
      | .ok _ => xack st message.id

/-- XPENDING from - to + with Count 100: the first hundred entries of the
pending list, across all consumers of the group. -/
def xpendingList (st : GroupState) : List PendingEntry :=
  st.pending.take 100

/-- Ownership transfer of one pending entry to a claiming consumer. -/
def reassignTo (consumer : String) (id : Nat) (q : PendingEntry) : PendingEntry :=
  if q.id = id then { q with consumer := consumer, idle := 0 } else q

/-- XCLAIM: when the entry is pending and idle at least minIdle, reassign it to
the claiming consumer (resetting idle) and return its payload. -/
def xclaim (st : GroupState) (consumer : String) (minIdle : Nat) (id : Nat) :
    List XMessage × GroupState :=
  match st.pending.find? (fun p => p.id = id) with
  | none => ([], st)
  | some p =>
      if minIdle ≤ p.idle then
        (st.entries.filter (fun m => m.id = id),
         { st with pending := st.pending.map (reassignTo consumer id) })
      else ([], st)

/-- Body of the recovery loop: claim one listed pending entry with MinIdle 0
and process every message the claim returned, extending the processed-ids
trace. -/
def recoveryStep (unmarshal : String → Option VideoJob) (consumer : String)
    (handler : VideoJob → Except String Unit) (acc : GroupState × List Nat)
    (p : PendingEntry) : GroupState × List Nat :=
  let claimed := xclaim acc.1 consumer 0 p.id
  (claimed.1.foldl (fun s m => processMessage unmarshal handler s m) claimed.2,
   acc.2 ++ claimed.1.map XMessage.id)

/-- processPendingMessages: list the pending entries, claim each with MinIdle 0
for this consumer, and process every claimed message in order. Returns the new
state and the processed message ids. -/
def processPendingMessages (unmarshal : String → Option VideoJob) (consumer : String)
    (handler : VideoJob → Except String Unit) (st : GroupState) :
    GroupState × List Nat :=
  (xpendingList st).foldl (recoveryStep unmarshal consumer handler) (st, [])

/-- XREADGROUP with the new-messages cursor: deliver up to count entries past
the group cursor, moving the cursor and adding the delivered entries to the
pending list for this consumer. -/
def xreadGroupNew (st : GroupState) (consumer : String) (count : Nat) :
    List XMessage × GroupState :=
  let new := (st.entries.filter (fun m => st.lastDelivered < m.id)).take count
  (new,
   { st with
     lastDelivered := new.foldl (fun acc m => max acc m.id) st.lastDelivered
     pending := st.pending ++ new.map (fun m => { id := m.id, consumer := consumer, idle := 0 }) })

/-- One observable step of the worker loop. -/
inductive WorkerEvent where
  | recovered (id : Nat)
  | consumed (id : Nat)
deriving DecidableEq, Repr

/-- The consuming loop of ConsumeJobs: read one new entry at a time and process
it; fuel is the number of loop iterations the run is observed for. -/
def consumeLoop (unmarshal : String → Option VideoJob) (consumer : String)
    (handler : VideoJob → Except String Unit) :
    Nat → GroupState → GroupState × List WorkerEvent
  | 0, st => (st, [])
  | fuel + 1, st =>
      let read := xreadGroupNew st consumer 1
      let st2 := read.1.foldl (fun s m => processMessage unmarshal handler s m) read.2
      let rest := consumeLoop unmarshal consumer handler fuel st2
      (rest.1, read.1.map (fun m => .consumed m.id) ++ rest.2)

/-- ConsumeJobs: first run the recovery pass over the pending list, then start
consuming new entries. -/
def consumeJobs (unmarshal : String → Option VideoJob) (consumer : String)
    (handler : VideoJob → Except String Unit) (st : GroupState) (fuel : Nat) :
    GroupState × List WorkerEvent :=
  let recovery := processPendingMessages unmarshal consumer handler st
  let rest := consumeLoop unmarshal consumer handler fuel recovery.1
  (rest.1, recovery.2.map .recovered ++ rest.2)

/-! ## Progress bus (PublishProgress, GetProgress) -/

/-- Key prefix and channel names of redis.go. -/
def progressKeyBase : String := "progress:"

/-- Per-job progress channel name base. -/
def progressChannelBase : String := "video:progress:"

/-- Global progress channel name. -/
def progressAllChan : String := "video:progress:all"

/-- Redis key-value state with expirations, the publish log, and the set of
channels having a live subscriber. now is the current instant; an entry is
visible while now is before its recorded expiry. TTLs are in seconds. -/
structure BusState where
  now : Nat
  kv : List (String × String × Nat)
  published : List (String × String)
  subscribers : List String
deriving DecidableEq, Repr

/-- SET with a TTL: overwrite the key with a fresh expiry. -/
def redisSet (st : BusState) (key value : String) (ttl : Nat) : BusState :=
  { st with kv := (key, value, st.now + ttl) :: st.kv.filter (fun e => e.1 ≠ key) }

/-- GET: the stored value while it has not expired. -/
def redisGet (st : BusState) (key : String) : Option String :=
  match st.kv.find? (fun e => e.1 = key) with
  | some (_, v, expiry) => if st.now < expiry then some v else none
  | none => none

/-- PUBLISH: fire-and-forget append to the publish log; never consults the
subscriber set. -/
def redisPublish (st : BusState) (channel payload : String) : BusState :=
  { st with published := st.published ++ [(channel, payload)] }

/-- PublishProgress: marshal the event, publish to the job channel and to the
global channel, then store the latest snapshot under the progress key with a
24-hour TTL. marshal is the json.Marshal collaborator. -/
def publishProgress (marshal : ProcessingProgress → String)
    (p : ProcessingProgress) (st : BusState) : BusState :=
  let data := marshal p
  let st1 := redisPublish st (progressChannelBase ++ p.videoID) data
  let st2 := redisPublish st1 progressAllChan data
  redisSet st2 (progressKeyBase ++ p.videoID) data (24 * 3600)

/-- GetProgress: read the snapshot key and unmarshal it. -/
def getProgress (unmarshal : String → Option ProcessingProgress)
    (videoID : String) (st : BusState) : Option ProcessingProgress :=
  match redisGet st (progressKeyBase ++ videoID) with
  | some data => unmarshal data
  | none => none

/-! ## Worker-loop acknowledgment (C1) -/

/-- C1: a delivered entry is acknowledged exactly when the payload fails to
decode (poison message, acked and dropped) or the handler returns success; when
the handler returns an error nothing is acknowledged, the state is unchanged
and the entry stays pending. -/
theorem claim_C1_ack_iff (unmarshal : String → Option VideoJob)
    (handler : VideoJob → Except String Unit) (st : GroupState) (message : XMessage)
    (hpend : message.id ∈ st.pending.map PendingEntry.id)
    (hnacked : message.id ∉ st.acked) :
    (message.id ∈ (processMessage unmarshal handler st message).acked ↔
      ((∃ e, parseJob unmarshal message.values = .error e)
        ∨ (∃ job, parseJob unmarshal message.values = .ok job ∧ handler job = .ok ())))
    ∧ (∀ job e, parseJob unmarshal message.values = .ok job → handler job = .error e →
        processMessage unmarshal handler st message = st
        ∧ message.id ∈ (processMessage unmarshal handler st message).pending.map
            PendingEntry.id) := by
  cases hp : parseJob unmarshal message.values with
  | error e =>
      simp [processMessage, hp, xack]
  | ok job =>
      cases hh : handler job with
      | error e2 =>
          simp [processMessage, hp, hh, hnacked, hpend]
      | ok u =>
          cases u
          refine ⟨by simp [processMessage, hp, hh, xack], ?_⟩
          intro j e hj he
          injection hj with hj2
          subst hj2
          rw [hh] at he
          simp at he

/-- Witness for C1 at a concrete delivered entry whose payload decodes and
whose handler succeeds. -/
theorem claim_C1_witness :
    (1 : Nat) ∈ ((processMessage (fun _ => some ⟨"v", "s", "o"⟩) (fun _ => .ok ())
      { entries := [], pending := [{ id := 1, consumer := "w", idle := 0 }],
        acked := [], lastDelivered := 1 }
      { id := 1, values := [("data", .str "x")] }).acked) := by
  have h := claim_C1_ack_iff (fun _ => some ⟨"v", "s", "o"⟩) (fun _ => .ok ())
    { entries := [], pending := [{ id := 1, consumer := "w", idle := 0 }],
      acked := [], lastDelivered := 1 }
    { id := 1, values := [("data", .str "x")] } (by decide) (by decide)
  exact h.1.mpr (Or.inr ⟨⟨"v", "s", "o"⟩, rfl, rfl⟩)

/-! ## Snapshot cache (C4) -/

/-- Expiry recorded for a key in the bus state, if the key is present. -/
def keyExpiry (st : BusState) (key : String) : Option Nat :=
  (st.kv.find? (fun e => e.1 = key)).map (fun e => e.2.2)

/-- C4: after PublishProgress succeeds, GetProgress on that job returns the
event just published, the snapshot key carries a renewed 24-hour expiry, the
result does not depend on the subscriber set, and in particular a completed
event is observed as completed by any later snapshot reader. Requires the
marshalling collaborators to round-trip on the event. -/
theorem claim_C4_snapshot_visibility (marshal : ProcessingProgress → String)
    (unmarshal : String → Option ProcessingProgress) (p : ProcessingProgress)
    (st : BusState) (hround : unmarshal (marshal p) = some p) :
    getProgress unmarshal p.videoID (publishProgress marshal p st) = some p
    ∧ keyExpiry (publishProgress marshal p st) (progressKeyBase ++ p.videoID)
        = some (st.now + 24 * 3600)
    ∧ (∀ subs, getProgress unmarshal p.videoID
        (publishProgress marshal p { st with subscribers := subs }) = some p)
    ∧ (p.status = .completed →
        (getProgress unmarshal p.videoID (publishProgress marshal p st)).map
          ProcessingProgress.status = some VideoStatus.completed) := by
  have hget : ∀ st2 : BusState,
      getProgress unmarshal p.videoID (publishProgress marshal p st2) = some p := by
    intro st2
    simp [getProgress, publishProgress, redisSet, redisPublish, redisGet, hround]
  refine ⟨hget st, ?_, fun subs => hget _, fun hc => by simp [hget st, hc]⟩
  simp [keyExpiry, publishProgress, redisSet, redisPublish]

/-- Witness for C4 with a completed event and round-tripping collaborators. -/
theorem claim_C4_witness :
    getProgress (fun _ => some { videoID := "v1", status := .completed, progress := 100 })
      "v1"
      (publishProgress (fun _ => "json")
        { videoID := "v1", status := .completed, progress := 100 }
        { now := 0, kv := [], published := [], subscribers := [] }) =
      some { videoID := "v1", status := .completed, progress := 100 } :=
  (claim_C4_snapshot_visibility (fun _ => "json")
    (fun _ => some { videoID := "v1", status := .completed, progress := 100 })
    { videoID := "v1", status := .completed, progress := 100 }
    { now := 0, kv := [], published := [], subscribers := [] } rfl).1

/-! ## Recovery pass lemmas (C3, C10) -/

/-- XACK keeps every pending entry other than the acknowledged one. -/
lemma xack_pending_mem (st : GroupState) (i j : Nat) (hne : j ≠ i)
    (hj : j ∈ st.pending.map PendingEntry.id) :
    j ∈ (xack st i).pending.map PendingEntry.id := by
  simp only [xack, List.mem_map, List.mem_filter] at *
  obtain ⟨q, hq, rfl⟩ := hj
  exact ⟨q, ⟨hq, by simpa using hne⟩, rfl⟩

/-- XCLAIM never touches the log, the cursor, the acknowledged ids, or the set
of pending ids; it only rewrites ownership fields. -/
lemma xclaim_state (st : GroupState) (c : String) (mi i : Nat) :
    (xclaim st c mi i).2.entries = st.entries
    ∧ (xclaim st c mi i).2.lastDelivered = st.lastDelivered
    ∧ (xclaim st c mi i).2.acked = st.acked
    ∧ (xclaim st c mi i).2.pending.map PendingEntry.id
        = st.pending.map PendingEntry.id := by
  cases h : st.pending.find? (fun p => p.id = i) with
  | none => simp [xclaim, h]
  | some p =>
      by_cases hi : mi ≤ p.idle
      · refine ⟨by simp [xclaim, h, hi], by simp [xclaim, h, hi],
          by simp [xclaim, h, hi], ?_⟩
        simp only [xclaim, h, hi, if_true]
        rw [List.map_map]
        congr 1
        funext q
        by_cases hq : q.id = i <;> simp [reassignTo, hq]
      · simp [xclaim, h, hi]

/-- processMessage never touches the log or the cursor, and every pending id
other than the processed message survives it. -/
lemma processMessage_state (um : String → Option VideoJob)
    (hd : VideoJob → Except String Unit) (st : GroupState) (m : XMessage) :
    (processMessage um hd st m).entries = st.entries
    ∧ (processMessage um hd st m).lastDelivered = st.lastDelivered
    ∧ (∀ j, j ≠ m.id → j ∈ st.pending.map PendingEntry.id →
        j ∈ (processMessage um hd st m).pending.map PendingEntry.id) := by
  cases hp : parseJob um m.values with
  | error e =>
      simp only [processMessage, hp]
      exact ⟨rfl, rfl, fun j hj hmem => xack_pending_mem st m.id j hj hmem⟩
  | ok job =>
      cases hh : hd job with
      | error e2 =>
          simp only [processMessage, hp, hh]
          exact ⟨trivial, trivial, fun j hj hmem => hmem⟩
      | ok u =>
          simp only [processMessage, hp, hh]
          exact ⟨rfl, rfl, fun j hj hmem => xack_pending_mem st m.id j hj hmem⟩

/-- In a log with distinct ids, filtering for one present id yields exactly one
message carrying that id. -/
lemma filter_id_singleton (l : List XMessage) (hnd : (l.map XMessage.id).Nodup)
    (i : Nat) (hi : i ∈ l.map XMessage.id) :
    ∃ m, l.filter (fun x => x.id = i) = [m] ∧ m.id = i := by
  induction l with
  | nil => simp at hi
  | cons a l ih =>
      simp only [List.map_cons, List.nodup_cons] at hnd
      by_cases ha : a.id = i
      · refine ⟨a, ?_, ha⟩
        have hnone : l.filter (fun x => x.id = i) = [] := by
          rw [List.filter_eq_nil_iff]
          intro x hx
          simp only [decide_eq_true_eq]
          intro hxi
          exact hnd.1 (by rw [← ha] at hxi; exact hxi ▸ List.mem_map_of_mem XMessage.id hx)
        simp [List.filter_cons, ha, hnone]
      · have hi2 : i ∈ l.map XMessage.id := by
          simp only [List.map_cons, List.mem_cons] at hi
          rcases hi with h1 | h2
          · exact absurd h1.symm ha
          · exact h2
        obtain ⟨m, hm, hmid⟩ := ih hnd.2 hi2
        exact ⟨m, by simp [List.filter_cons, ha, hm], hmid⟩

/-- Main recovery-fold invariant: folding the MinIdle-0 claim-and-process step
over a list of pending entries with distinct ids, all present in the pending
list and the log, processes exactly the listed ids in order, preserves the log
and the cursor, and keeps every unlisted pending id pending. -/
lemma recoveryFold_spec (um : String → Option VideoJob) (c : String)
    (hd : VideoJob → Except String Unit) :
    ∀ (L : List PendingEntry) (st : GroupState) (acc : List Nat),
      (st.entries.map XMessage.id).Nodup →
      (L.map PendingEntry.id).Nodup →
      (∀ p ∈ L, p.id ∈ st.pending.map PendingEntry.id) →
      (∀ p ∈ L, p.id ∈ st.entries.map XMessage.id) →
      (L.foldl (recoveryStep um c hd) (st, acc)).2 = acc ++ L.map PendingEntry.id
      ∧ (L.foldl (recoveryStep um c hd) (st, acc)).1.entries = st.entries
      ∧ (L.foldl (recoveryStep um c hd) (st, acc)).1.lastDelivered = st.lastDelivered
      ∧ (∀ j, j ∈ st.pending.map PendingEntry.id → j ∉ L.map PendingEntry.id →
          j ∈ (L.foldl (recoveryStep um c hd) (st, acc)).1.pending.map PendingEntry.id) := by
  intro L
  induction L with
  | nil => intro st acc _ _ _ _; simp
  | cons p L ih =>
      intro st acc hE hnd hpend hcov
      simp only [List.map_cons, List.nodup_cons] at hnd
      have hpmem : p.id ∈ st.pending.map PendingEntry.id := hpend p (by simp)
      have hpcov : p.id ∈ st.entries.map XMessage.id := hcov p (by simp)
      obtain ⟨q, hfind⟩ : ∃ q, st.pending.find? (fun r => r.id = p.id) = some q := by
        cases hf : st.pending.find? (fun r => r.id = p.id) with
        | some q => exact ⟨q, rfl⟩
        | none =>
            rw [List.find?_eq_none] at hf
            obtain ⟨r, hr, hrid⟩ := List.mem_map.mp hpmem
            exact absurd (by simp [hrid]) (hf r hr)
      obtain ⟨m, hmfil, hmid⟩ := filter_id_singleton st.entries hE p.id hpcov
      have hclaim : xclaim st c 0 p.id =
          (st.entries.filter (fun x => x.id = p.id),
           { st with pending := st.pending.map (reassignTo c p.id) }) := by
        simp [xclaim, hfind]
      set st1 : GroupState :=
        { st with pending := st.pending.map (reassignTo c p.id) } with hst1
      have hst1ids : st1.pending.map PendingEntry.id = st.pending.map PendingEntry.id := by
        rw [hst1]
        dsimp only
        rw [List.map_map]
        congr 1
        funext r
        by_cases hr : r.id = p.id <;> simp [reassignTo, hr]
      have hstep : recoveryStep um c hd (st, acc) p =
          (processMessage um hd st1 m, acc ++ [p.id]) := by
        simp [recoveryStep, hclaim, hmfil, hmid]
      set st2 := processMessage um hd st1 m with hst2
      have hm2 := processMessage_state um hd st1 m
      have hent2 : st2.entries = st.entries := by rw [← hst2] at hm2; rw [hm2.1]
      have hlast2 : st2.lastDelivered = st.lastDelivered := by
        rw [← hst2] at hm2; rw [hm2.2.1]
      have hkeep : ∀ j, j ≠ p.id → j ∈ st.pending.map PendingEntry.id →
          j ∈ st2.pending.map PendingEntry.id := by
        intro j hj hjmem
        exact hm2.2.2 j (by rw [hmid]; exact hj) (by rw [hst1ids]; exact hjmem)
      have ihres := ih st2 (acc ++ [p.id]) (by rw [hent2]; exact hE) hnd.2
        (fun r hr => hkeep r.id
          (fun heq => hnd.1 (heq ▸ List.mem_map_of_mem PendingEntry.id hr))
          (hpend r (by simp [hr])))
        (fun r hr => by rw [hent2]; exact hcov r (by simp [hr]))
      rw [List.foldl_cons, hstep]
      refine ⟨?_, ?_, ?_, ?_⟩
      · rw [ihres.1]; simp
      · rw [ihres.2.1, hent2]
      · rw [ihres.2.2.1, hlast2]
      · intro j hjmem hjnot
        simp only [List.map_cons, List.mem_cons] at hjnot
        push_neg at hjnot
        exact ihres.2.2.2 j (hkeep j hjnot.1 hjmem) hjnot.2

/-- The recovery pass over a well-formed group state processes exactly the
first hundred pending ids in order, preserves the log and the cursor, and
leaves every unprocessed pending id pending. -/
lemma processPendingMessages_trace (um : String → Option VideoJob) (c : String)
    (hd : VideoJob → Except String Unit) (st : GroupState)
    (hE : (st.entries.map XMessage.id).Nodup)
    (hP : (st.pending.map PendingEntry.id).Nodup)
    (hC : ∀ p ∈ st.pending, p.id ∈ st.entries.map XMessage.id) :
    (processPendingMessages um c hd st).2 = (st.pending.take 100).map PendingEntry.id
    ∧ (processPendingMessages um c hd st).1.entries = st.entries
    ∧ (processPendingMessages um c hd st).1.lastDelivered = st.lastDelivered
    ∧ (∀ j, j ∈ st.pending.map PendingEntry.id →
        j ∉ (st.pending.take 100).map PendingEntry.id →
        j ∈ (processPendingMessages um c hd st).1.pending.map PendingEntry.id) := by
  have hsub : List.Sublist (st.pending.take 100) st.pending :=
    List.take_sublist 100 st.pending
  have h := recoveryFold_spec um c hd (st.pending.take 100) st []
    hE
    (by rw [List.map_take]; exact hP.sublist (List.take_sublist 100 _))
    (fun p hp => List.mem_map_of_mem PendingEntry.id (hsub.mem hp))
    (fun p hp => hC p (hsub.mem hp))
  exact ⟨by simpa using h.1, h.2.1, h.2.2.1, h.2.2.2⟩

/-- C3 amended: ConsumeJobs runs the recovery pass before any new-entry read,
and the recovery pass claims and synchronously processes, in order, exactly the
pending entries returned by the single listing — which is capped at the first
hundred pending entries of the group, across all consumers. -/
theorem claim_C3_recovery_before_consume (um : String → Option VideoJob) (c : String)
    (hd : VideoJob → Except String Unit) (st : GroupState) (fuel : Nat)
    (hE : (st.entries.map XMessage.id).Nodup)
    (hP : (st.pending.map PendingEntry.id).Nodup)
    (hC : ∀ p ∈ st.pending, p.id ∈ st.entries.map XMessage.id) :
    (processPendingMessages um c hd st).2 = (st.pending.take 100).map PendingEntry.id
    ∧ (consumeJobs um c hd st fuel).2
        = ((st.pending.take 100).map PendingEntry.id).map WorkerEvent.recovered
          ++ (consumeLoop um c hd fuel (processPendingMessages um c hd st).1).2 := by
  have h := processPendingMessages_trace um c hd st hE hP hC
  exact ⟨h.1, by simp [consumeJobs, h.1]⟩

/-- Witness for the amended C3 statement at a two-entry pending list. -/
theorem claim_C3_witness :
    (processPendingMessages (fun _ => some ⟨"v", "s", "o"⟩) "w1" (fun _ => .ok ())
      { entries := [{ id := 1, values := [("data", .str "j")] },
                    { id := 2, values := [("data", .str "j")] }],
        pending := [{ id := 1, consumer := "a", idle := 0 },
                    { id := 2, consumer := "b", idle := 7 }],
        acked := [], lastDelivered := 2 }).2 = [1, 2] := by
  have h := claim_C3_recovery_before_consume (fun _ => some ⟨"v", "s", "o"⟩) "w1"
    (fun _ => .ok ())
    { entries := [{ id := 1, values := [("data", .str "j")] },
                  { id := 2, values := [("data", .str "j")] }],
      pending := [{ id := 1, consumer := "a", idle := 0 },
                  { id := 2, consumer := "b", idle := 7 }],
      acked := [], lastDelivered := 2 } 0
    (by decide) (by decide) (by decide)
  rw [h.1]
  decide

/-- A group state with 101 pending entries (ids 1 to 101, abandoned by a
crashed consumer) and one not yet delivered entry (id 102). -/
def bigPendingState : GroupState :=
  { entries := (List.range 102).map
      (fun k => { id := k + 1, values := [("data", .str "j")] }),
    pending := (List.range 101).map
      (fun k => { id := k + 1, consumer := "crashed", idle := 9 }),
    acked := [],
    lastDelivered := 101 }

set_option maxRecDepth 100000 in
/-- C3 counterexample: with 101 pending entries, the recovery pass processes
only the first hundred; entry 101 is pending but is never claimed during
recovery, and the loop then consumes the new entry 102 while entry 101 is
still unrecovered — refuting that every delivered-but-unacknowledged entry is
processed before consuming starts. -/
theorem claim_C3_counterexample :
    (101 : Nat) ∈ bigPendingState.pending.map PendingEntry.id
    ∧ (101 : Nat) ∉ (processPendingMessages (fun _ => some ⟨"v", "s", "o"⟩) "w1"
        (fun _ => .ok ()) bigPendingState).2
    ∧ (consumeLoop (fun _ => some ⟨"v", "s", "o"⟩) "w1" (fun _ => .ok ()) 1
        (processPendingMessages (fun _ => some ⟨"v", "s", "o"⟩) "w1"
          (fun _ => .ok ()) bigPendingState).1).2 = [WorkerEvent.consumed 102] := by
  have h := processPendingMessages_trace (fun _ => some ⟨"v", "s", "o"⟩) "w1"
    (fun _ => .ok ()) bigPendingState (by decide) (by decide) (by decide)
  refine ⟨by decide, ?_, ?_⟩
  · rw [h.1]; decide
  · simp only [consumeLoop, xreadGroupNew, h.2.1, h.2.2.1]
    decide

/-- C10: the recovery pass processes every listed pending entry no matter who
owns it or how recently it was delivered, because its claim uses MinIdle 0: for
any pending entry (any owner, any idle time, including zero) the MinIdle-0
claim returns the payload and reassigns ownership to the recovering consumer. -/
theorem claim_C10_minidle_zero_claim (um : String → Option VideoJob) (c : String)
    (hd : VideoJob → Except String Unit) (st : GroupState)
    (hE : (st.entries.map XMessage.id).Nodup)
    (hP : (st.pending.map PendingEntry.id).Nodup)
    (hC : ∀ p ∈ st.pending, p.id ∈ st.entries.map XMessage.id)
    (p : PendingEntry) (hp : p ∈ xpendingList st) :
    p.id ∈ (processPendingMessages um c hd st).2
    ∧ ∀ (st2 : GroupState) (q : PendingEntry),
        st2.pending.find? (fun r => r.id = q.id) = some q →
        (xclaim st2 c 0 q.id).1 = st2.entries.filter (fun m => m.id = q.id)
        ∧ (xclaim st2 c 0 q.id).2.pending = st2.pending.map (reassignTo c q.id) := by
  constructor
  · have h := processPendingMessages_trace um c hd st hE hP hC
    rw [h.1]
    exact List.mem_map_of_mem PendingEntry.id hp
  · intro st2 q hfind
    constructor <;> simp [xclaim, hfind]

/-- Witness for C10: a pending entry owned by a live sibling consumer with zero
idle time is still processed by the recovery pass of another consumer. -/
theorem claim_C10_witness :
    (5 : Nat) ∈ (processPendingMessages (fun _ => some ⟨"v", "s", "o"⟩) "w2"
      (fun _ => .ok ())
      { entries := [{ id := 5, values := [("data", .str "j")] }],
        pending := [{ id := 5, consumer := "w1", idle := 0 }],
        acked := [], lastDelivered := 5 }).2 :=
  (claim_C10_minidle_zero_claim (fun _ => some ⟨"v", "s", "o"⟩) "w2" (fun _ => .ok ())
    { entries := [{ id := 5, values := [("data", .str "j")] }],
      pending := [{ id := 5, consumer := "w1", idle := 0 }],
      acked := [], lastDelivered := 5 }
    (by decide) (by decide) (by decide)
    { id := 5, consumer := "w1", idle := 0 } (by decide)).1

/-! ## Pipeline trace lemmas (C5, C6, C7, C9) -/

/-- A trace without transcode starts contributes no publish-before-start
pairs. -/
lemma preStartPairs_no_start : ∀ (s : List Action),
    (∀ a ∈ s, isStart a = false) → preStartPairs s = [] := by
  intro s
  induction s using preStartPairs.induct with
  | case1 e r rest ih =>
      intro h
      have := h (.transcodeStart r) (by simp)
      simp [isStart] at this
  | case2 head rest hne ih =>
      intro h
      rw [preStartPairs]
      · exact ih fun a ha => h a (List.mem_cons_of_mem _ ha)
      · exact hne
  | case3 => intro h; rfl

/-- The publish-before-start pair equation. -/
lemma preStartPairs_pair (e : ProcessingProgress) (r : Int) (l : List Action) :
    preStartPairs (.publish e :: .transcodeStart r :: l) = (e, r) :: preStartPairs l := by
  rw [preStartPairs]

/-- A database update is skipped by the pair scan. -/
lemma preStartPairs_updateDB (u : Video) (l : List Action) :
    preStartPairs (.updateDB u :: l) = preStartPairs l := by
  rw [preStartPairs]
  intro e r rest1 hh
  exact absurd hh (by simp)

/-- A row creation is skipped by the pair scan. -/
lemma preStartPairs_createResolution (r : ResolutionInfo) (l : List Action) :
    preStartPairs (.createResolution r :: l) = preStartPairs l := by
  rw [preStartPairs]
  intro e r2 rest1 hh
  exact absurd hh (by simp)

/-- A publish not followed by a transcode start is skipped by the pair scan. -/
lemma preStartPairs_publish_no_start (e : ProcessingProgress) (l : List Action)
    (hl : ∀ r, l.head? ≠ some (.transcodeStart r)) :
    preStartPairs (.publish e :: l) = preStartPairs l := by
  rw [preStartPairs]
  intro e2 r rest1 hh hr
  exact hl r (by rw [hr]; rfl)

/-- Lists without transcode starts have no transcode start at the head. -/
lemma head_not_start_of_no_start (s : List Action)
    (hs : ∀ a ∈ s, isStart a = false) (r : Int) :
    s.head? ≠ some (.transcodeStart r) := by
  cases s with
  | nil => simp
  | cons a s2 =>
      simp only [List.head?_cons, ne_eq, Option.some.injEq]
      intro h
      have := hs a (by simp)
      rw [h] at this
      simp [isStart] at this

/-- The rendition loop trace never begins with a transcode start: each
iteration publishes its progress event first. -/
lemma renditionLoop_head_not_start (vid : String)
    (tc : Int → Except String TranscodeArtifacts) (total : Nat)
    (rs : List Int) (i : Nat) (s : List Action)
    (hs : ∀ a ∈ s, isStart a = false) (r : Int) :
    (((renditionLoop vid tc total rs i).1) ++ s).head? ≠ some (.transcodeStart r) := by
  cases rs with
  | nil =>
      simp only [renditionLoop, List.nil_append]
      exact head_not_start_of_no_start s hs r
  | cons res rest =>
      cases htc : tc res <;> simp [renditionLoop, transcodeToHLS, htc]

/-- Core loop invariant for C5: appending any start-free suffix, the pair scan
of the rendition loop trace finds, for the attempt at loop offset j, a
processing event carrying percent 5 plus the floor of (i plus j) times 90 over
the rendition count, paired with the height at position j; and every transcode
start in the loop trace is covered by such a pair. -/
lemma renditionLoop_pairs (vid : String) (tc : Int → Except String TranscodeArtifacts)
    (total : Nat) :
    ∀ (rs : List Int) (i : Nat) (s : List Action), (∀ a ∈ s, isStart a = false) →
      (∀ j p, (preStartPairs ((renditionLoop vid tc total rs i).1 ++ s)).get? j = some p →
          p.1.progress = ((5 + ((i + j) * 90) / total : Nat) : Int)
          ∧ p.1.status = .processing ∧ p.1.totalResolutions = total
          ∧ rs.get? j = some p.2)
      ∧ (preStartPairs ((renditionLoop vid tc total rs i).1 ++ s)).length
          = countStarts ((renditionLoop vid tc total rs i).1) := by
  intro rs
  induction rs with
  | nil =>
      intro i s hs
      simp only [renditionLoop, List.nil_append, preStartPairs_no_start s hs]
      exact ⟨fun j p hp => by simp at hp, by simp [countStarts]⟩
  | cons res rest ih =>
      intro i s hs
      cases htc : tc res with
      | error e =>
          have hred : (renditionLoop vid tc total (res :: rest) i).1 ++ s =
              .publish (preEventOf vid res total i)
              :: .transcodeStart res
              :: .updateDB (failUpdateOf s!"failed to transcode {res}p: {e}")
              :: .publish (failEventOf vid ((5 + (i * 90) / total : Nat) : Int)
                    s!"failed to transcode {res}p: {e}")
              :: s := by
            simp [renditionLoop, transcodeToHLS, htc]
          have hred2 : (renditionLoop vid tc total (res :: rest) i).1 =
              [.publish (preEventOf vid res total i),
               .transcodeStart res,
               .updateDB (failUpdateOf s!"failed to transcode {res}p: {e}"),
               .publish (failEventOf vid ((5 + (i * 90) / total : Nat) : Int)
                    s!"failed to transcode {res}p: {e}")] := by
            simp [renditionLoop, transcodeToHLS, htc]
          rw [hred, preStartPairs_pair, preStartPairs_updateDB,
            preStartPairs_publish_no_start _ _ (head_not_start_of_no_start s hs),
            preStartPairs_no_start s hs]
          constructor
          · intro j p hp
            cases j with
            | zero =>
                simp only [List.get?] at hp
                injection hp with hp2
                subst hp2
                exact ⟨by simp [preEventOf], rfl, rfl, rfl⟩
            | succ j2 => simp [List.get?] at hp
          · rw [hred2]
            simp [countStarts, List.countP_cons, isStart]
      | ok art =>
          have hred : (renditionLoop vid tc total (res :: rest) i).1 ++ s =
              .publish (preEventOf vid res total i)
              :: .transcodeStart res
              :: .createResolution (infoOf vid res art)
              :: ((renditionLoop vid tc total rest (i + 1)).1 ++ s) := by
            simp [renditionLoop, transcodeToHLS, htc]
          have hred2 : (renditionLoop vid tc total (res :: rest) i).1 =
              .publish (preEventOf vid res total i)
              :: .transcodeStart res
              :: .createResolution (infoOf vid res art)
              :: (renditionLoop vid tc total rest (i + 1)).1 := by
            simp [renditionLoop, transcodeToHLS, htc]
          have ihres := ih (i + 1) s hs
          rw [hred, preStartPairs_pair, preStartPairs_createResolution]
          constructor
          · intro j p hp
            cases j with
            | zero =>
                simp only [List.get?] at hp
                injection hp with hp2
                subst hp2
                exact ⟨by simp [preEventOf], rfl, rfl, rfl⟩
            | succ j2 =>
                simp only [List.get?] at hp
                have h2 := ihres.1 j2 p hp
                have harith : i + 1 + j2 = i + (j2 + 1) := by omega
                rw [harith] at h2
                exact ⟨h2.1, h2.2.1, h2.2.2.1, by simpa using h2.2.2.2⟩
          · rw [hred2]
            simp only [List.length_cons, countStarts, List.countP_cons]
            have := ihres.2
            simp only [countStarts] at this
            simp [this, isStart]

/-- findSome? skips a block mapped entirely to none. -/
lemma findSome?_append_none {α β : Type} (f : α → Option β) (l1 l2 : List α)
    (h : ∀ a ∈ l1, f a = none) : (l1 ++ l2).findSome? f = l2.findSome? f := by
  induction l1 with
  | nil => rfl
  | cons a l ih =>
      have ha := h a (by simp)
      simp only [List.cons_append, List.findSome?_cons, ha]
      exact ih fun x hx => h x (by simp [hx])

/-- The rendition loop never uploads a master playlist. -/
lemma renditionLoop_no_upload (vid : String) (tc : Int → Except String TranscodeArtifacts)
    (total : Nat) :
    ∀ (rs : List Int) (i : Nat), ∀ a ∈ (renditionLoop vid tc total rs i).1,
      uploadOf a = none := by
  intro rs
  induction rs with
  | nil => intro i a ha; simp [renditionLoop] at ha
  | cons res rest ih =>
      intro i a ha
      cases htc : tc res with
      | error e =>
          simp only [renditionLoop, transcodeToHLS, htc, List.cons_append, List.nil_append,
            List.mem_cons, List.mem_singleton, List.append_nil] at ha
          rcases ha with rfl | rfl | rfl | rfl | h2
          any_goals rfl
          simp at h2
      | ok art =>
          simp only [renditionLoop, transcodeToHLS, htc, List.cons_append, List.nil_append,
            List.mem_cons] at ha
          rcases ha with rfl | rfl | rfl | h2
          · rfl
          · rfl
          · rfl
          · exact ih (i + 1) a h2

/-- The rows created by the rendition loop are exactly its accumulated
ResolutionInfo records. -/
lemma renditionLoop_created (vid : String) (tc : Int → Except String TranscodeArtifacts)
    (total : Nat) :
    ∀ (rs : List Int) (i : Nat),
      createdResolutions (renditionLoop vid tc total rs i).1
        = (renditionLoop vid tc total rs i).2.1 := by
  intro rs
  induction rs with
  | nil => intro i; simp [renditionLoop, createdResolutions]
  | cons res rest ih =>
      intro i
      cases htc : tc res with
      | error e =>
          simp [renditionLoop, transcodeToHLS, htc, createdResolutions, createdOf]
      | ok art =>
          have h2 := ih (i + 1)
          simp only [createdResolutions] at h2
          simp [renditionLoop, transcodeToHLS, htc, createdResolutions, createdOf, h2]

/-- On a fully successful loop, the accumulated records carry exactly the
requested heights with their estimated bandwidths, in order. -/
lemma renditionLoop_heights_ok (vid : String) (tc : Int → Except String TranscodeArtifacts)
    (total : Nat) :
    ∀ (rs : List Int) (i : Nat),
      (renditionLoop vid tc total rs i).2.2 = .ok () →
      (renditionLoop vid tc total rs i).2.1.map (fun x => (x.height, x.bandwidth))
        = rs.map (fun h => (h, estimateBandwidth h)) := by
  intro rs
  induction rs with
  | nil => intro i _; simp [renditionLoop]
  | cons res rest ih =>
      intro i hok
      cases htc : tc res with
      | error e => simp [renditionLoop, transcodeToHLS, htc] at hok
      | ok art =>
          simp only [renditionLoop, transcodeToHLS, htc] at hok ⊢
          simp only [List.map_cons, List.cons.injEq]
          exact ⟨by simp [infoOf], ih (i + 1) hok⟩

/-- Trace decomposition of a run with a successful probe: two row updates and
two events, then the rendition loop trace, then a start-free tail. -/
lemma processVideoStreaming_shape (job : VideoJob) (md : VideoMetadata)
    (tc : Int → Except String TranscodeArtifacts) (mu : Except String Unit) :
    ∃ tail : List Action,
      (processVideoStreaming job (.ok md) tc mu).1
        = .updateDB processingUpdate :: .publish (startEventOf job.videoID)
          :: .updateDB (metaUpdateOf md)
          :: .publish (countEventOf job.videoID (getTargetResolutions md.height).length)
          :: ((renditionLoop job.videoID tc (getTargetResolutions md.height).length
                (getTargetResolutions md.height) 0).1 ++ tail)
      ∧ (∀ a ∈ tail, isStart a = false) := by
  cases hrun : (renditionLoop job.videoID tc (getTargetResolutions md.height).length
      (getTargetResolutions md.height) 0).2.2 with
  | error msg =>
      refine ⟨[], ?_, by simp⟩
      simp [processVideoStreaming, hrun]
  | ok u =>
      cases u
      cases hmu : mu with
      | error e =>
          refine ⟨[.updateDB (failUpdateOf s!"failed to upload master playlist: {e}")],
            ?_, by simp [isStart]⟩
          simp [processVideoStreaming, hrun, generateAndUploadMasterPlaylist, hmu]
      | ok u2 =>
          cases u2
          refine ⟨[.uploadMaster (sortByBandwidthDesc
              (renditionLoop job.videoID tc (getTargetResolutions md.height).length
                (getTargetResolutions md.height) 0).2.1),
            .updateDB (masterKeyUpdateOf job.videoID),
            .updateDB completedUpdate, .publish (doneEventOf job.videoID)],
            ?_, by intro a ha; fin_cases ha <;> rfl⟩
          simp [processVideoStreaming, hrun, generateAndUploadMasterPlaylist, hmu]

/-- C5: in every run with a successful probe, the number of progress events
published immediately before a transcode start equals the number of transcode
starts (each rendition start is announced first), and the event before the
start at zero-based index j carries percent 5 plus the floor of j times 90 over
the rendition count, with processing status, the total rendition count, and the
height at position j of the ladder. -/
theorem claim_C5_percent_formula (job : VideoJob) (md : VideoMetadata)
    (tc : Int → Except String TranscodeArtifacts) (mu : Except String Unit) :
    (preStartPairs (processVideoStreaming job (.ok md) tc mu).1).length
      = countStarts (processVideoStreaming job (.ok md) tc mu).1
    ∧ ∀ j p, (preStartPairs (processVideoStreaming job (.ok md) tc mu).1).get? j = some p →
        p.1.progress
            = ((5 + (j * 90) / (getTargetResolutions md.height).length : Nat) : Int)
        ∧ p.1.status = .processing
        ∧ p.1.totalResolutions = (getTargetResolutions md.height).length
        ∧ (getTargetResolutions md.height).get? j = some p.2 := by
  obtain ⟨tail, htr, htail⟩ := processVideoStreaming_shape job md tc mu
  have hloop := renditionLoop_pairs job.videoID tc (getTargetResolutions md.height).length
    (getTargetResolutions md.height) 0 tail htail
  have hpairs : preStartPairs (processVideoStreaming job (.ok md) tc mu).1
      = preStartPairs ((renditionLoop job.videoID tc (getTargetResolutions md.height).length
          (getTargetResolutions md.height) 0).1 ++ tail) := by
    rw [htr]
    rw [preStartPairs_updateDB]
    rw [preStartPairs_publish_no_start _ _ (by simp)]
    rw [preStartPairs_updateDB]
    rw [preStartPairs_publish_no_start _ _
      (renditionLoop_head_not_start job.videoID tc _ _ 0 tail htail)]
  have htail0 : tail.countP isStart = 0 :=
    List.countP_eq_zero.mpr (by intro a ha; simp [htail a ha])
  have hcount : countStarts (processVideoStreaming job (.ok md) tc mu).1
      = countStarts ((renditionLoop job.videoID tc (getTargetResolutions md.height).length
          (getTargetResolutions md.height) 0).1) := by
    rw [htr]
    simp [countStarts, List.countP_cons, List.countP_append, isStart, htail0]
  constructor
  · rw [hpairs, hcount]
    have := hloop.2
    simpa [countStarts, List.countP_append, htail0] using this
  · intro j p hp
    rw [hpairs] at hp
    have h2 := hloop.1 j p hp
    simpa using h2

/-- Witness for C5: with a 1080p source the event before the second rendition
(zero-based index 1 of a six-step ladder) carries percent 20. -/
theorem claim_C5_witness :
    ∃ p, (preStartPairs (processVideoStreaming ⟨"v1", "s", "o"⟩
        (.ok ⟨1920, 1080, 60, 0⟩) (fun _ => .ok ⟨2, 5⟩) (.ok ())).1).get? 1 = some p
      ∧ p.1.progress = 20 := by
  have h := claim_C5_percent_formula ⟨"v1", "s", "o"⟩ ⟨1920, 1080, 60, 0⟩
    (fun _ => .ok ⟨2, 5⟩) (.ok ())
  cases hp : (preStartPairs (processVideoStreaming ⟨"v1", "s", "o"⟩
      (.ok ⟨1920, 1080, 60, 0⟩) (fun _ => .ok ⟨2, 5⟩) (.ok ())).1).get? 1 with
  | none =>
      exfalso
      have hlen := h.1
      rw [List.get?_eq_none] at hp
      rw [hlen] at hp
      revert hp
      decide
  | some p =>
      refine ⟨p, rfl, ?_⟩
      have h2 := (h.2 1 p hp).1
      rw [h2]
      decide

/-- The bandwidth estimates along any selected ladder are strictly
decreasing. -/
lemma ladder_bandwidths_strict (h : Int) :
    ((getTargetResolutions h).map estimateBandwidth).Pairwise (fun a b => b < a) := by
  rcases (ladder_cases h).2.1 with ⟨pre, hpre, _⟩ | ⟨_, heq⟩
  · have hsub : List.Sublist (getTargetResolutions h) standardResolutions := by
      rw [← hpre]
      exact List.sublist_append_right pre _
    have hstd : (standardResolutions.map estimateBandwidth).Pairwise (fun a b => b < a) := by
      decide
    exact hstd.sublist (hsub.map estimateBandwidth)
  · rw [heq]
    simp

/-- C6: on every fully successful run, the uploaded master playlist lists a
permutation of the created rendition rows sorted strictly by descending
bandwidth estimate (so the descending-height tie-break holds vacuously, ties
being impossible on a ladder); and on the heights 144, 1080, 480 the sort
orders the manifest 1080, 480, 144. -/
theorem claim_C6_manifest_order (job : VideoJob) (md : VideoMetadata)
    (tc : Int → Except String TranscodeArtifacts) (mu : Except String Unit)
    (hok : (processVideoStreaming job (.ok md) tc mu).2 = .ok ()) :
    (∃ m, manifestOf (processVideoStreaming job (.ok md) tc mu).1 = some m
      ∧ m.Perm (createdResolutions (processVideoStreaming job (.ok md) tc mu).1)
      ∧ m.Pairwise (fun a b => b.bandwidth < a.bandwidth
          ∨ (b.bandwidth = a.bandwidth ∧ b.height ≤ a.height)))
    ∧ (sortByBandwidthDesc
          [infoOf "v" 144 ⟨1, 1⟩, infoOf "v" 1080 ⟨1, 1⟩, infoOf "v" 480 ⟨1, 1⟩]).map
        ResolutionInfo.height = [1080, 480, 144] := by
  refine ⟨?_, by decide⟩
  cases hrun : (renditionLoop job.videoID tc (getTargetResolutions md.height).length
      (getTargetResolutions md.height) 0).2.2 with
  | error msg => exact absurd hok (by simp [processVideoStreaming, hrun])
  | ok u =>
      cases u
      cases mu with
      | error e =>
          exact absurd hok
            (by simp [processVideoStreaming, hrun, generateAndUploadMasterPlaylist])
      | ok u2 =>
          cases u2
          have htr : (processVideoStreaming job (.ok md) tc (.ok ())).1 =
              .updateDB processingUpdate :: .publish (startEventOf job.videoID)
              :: .updateDB (metaUpdateOf md)
              :: .publish (countEventOf job.videoID (getTargetResolutions md.height).length)
              :: ((renditionLoop job.videoID tc (getTargetResolutions md.height).length
                    (getTargetResolutions md.height) 0).1 ++
                  [.uploadMaster (sortByBandwidthDesc
                      (renditionLoop job.videoID tc (getTargetResolutions md.height).length
                        (getTargetResolutions md.height) 0).2.1),
                   .updateDB (masterKeyUpdateOf job.videoID),
                   .updateDB completedUpdate, .publish (doneEventOf job.videoID)]) := by
            simp [processVideoStreaming, hrun, generateAndUploadMasterPlaylist]
          have hman : manifestOf (processVideoStreaming job (.ok md) tc (.ok ())).1
              = some (sortByBandwidthDesc
                  (renditionLoop job.videoID tc (getTargetResolutions md.height).length
                    (getTargetResolutions md.height) 0).2.1) := by
            rw [htr]
            simp only [manifestOf, List.findSome?_cons, uploadOf]
            rw [findSome?_append_none uploadOf _ _
              (renditionLoop_no_upload job.videoID tc _ _ 0)]
            simp [List.findSome?_cons, uploadOf]
          have hcreated : createdResolutions (processVideoStreaming job (.ok md) tc (.ok ())).1
              = (renditionLoop job.videoID tc (getTargetResolutions md.height).length
                  (getTargetResolutions md.height) 0).2.1 := by
            rw [htr]
            simp only [createdResolutions, List.filterMap_cons, createdOf,
              List.filterMap_append]
            rw [show List.filterMap createdOf
                (renditionLoop job.videoID tc (getTargetResolutions md.height).length
                  (getTargetResolutions md.height) 0).1
              = (renditionLoop job.videoID tc (getTargetResolutions md.height).length
                  (getTargetResolutions md.height) 0).2.1
              from renditionLoop_created job.videoID tc _ _ 0]
            simp [createdOf]
          refine ⟨sortByBandwidthDesc
              (renditionLoop job.videoID tc (getTargetResolutions md.height).length
                (getTargetResolutions md.height) 0).2.1, hman, ?_, ?_⟩
          · rw [hcreated]
            exact sortByBandwidthDesc_perm _
          · have hperm : (sortByBandwidthDesc
                (renditionLoop job.videoID tc (getTargetResolutions md.height).length
                  (getTargetResolutions md.height) 0).2.1).Perm
                (renditionLoop job.videoID tc (getTargetResolutions md.height).length
                  (getTargetResolutions md.height) 0).2.1 := sortByBandwidthDesc_perm _
            have hsorted : (sortByBandwidthDesc
                (renditionLoop job.videoID tc (getTargetResolutions md.height).length
                  (getTargetResolutions md.height) 0).2.1).Pairwise
                (fun a b => b.bandwidth ≤ a.bandwidth) :=
              sortByBandwidthDesc_sorted _
            have hpair := renditionLoop_heights_ok job.videoID tc
              (getTargetResolutions md.height).length (getTargetResolutions md.height) 0 hrun
            have hbw : (renditionLoop job.videoID tc (getTargetResolutions md.height).length
                    (getTargetResolutions md.height) 0).2.1.map ResolutionInfo.bandwidth
                = (getTargetResolutions md.height).map estimateBandwidth := by
              have := congrArg (List.map Prod.snd) hpair
              simpa [List.map_map, Function.comp] using this
            have hstrict := ladder_bandwidths_strict md.height
            have hnd : ((renditionLoop job.videoID tc (getTargetResolutions md.height).length
                (getTargetResolutions md.height) 0).2.1.map ResolutionInfo.bandwidth).Nodup := by
              rw [hbw]
              exact hstrict.imp (fun hx => by omega)
            have hmnd : ((sortByBandwidthDesc
                (renditionLoop job.videoID tc (getTargetResolutions md.height).length
                  (getTargetResolutions md.height) 0).2.1).map
                    ResolutionInfo.bandwidth).Nodup :=
              ((hperm.map ResolutionInfo.bandwidth).nodup_iff).mpr hnd
            have hpne := List.pairwise_map.mp hmnd
            exact (hsorted.and hpne).imp (fun hx => Or.inl (by omega))

/-- Witness for C6 at a fully successful 360p job. -/
theorem claim_C6_witness :
    ∃ m, manifestOf (processVideoStreaming ⟨"v6", "s6", "o6"⟩ (.ok ⟨640, 360, 10, 0⟩)
        (fun _ => .ok ⟨1, 1⟩) (.ok ())).1 = some m
      ∧ m.Perm (createdResolutions (processVideoStreaming ⟨"v6", "s6", "o6"⟩
          (.ok ⟨640, 360, 10, 0⟩) (fun _ => .ok ⟨1, 1⟩) (.ok ())).1)
      ∧ m.Pairwise (fun a b => b.bandwidth < a.bandwidth
          ∨ (b.bandwidth = a.bandwidth ∧ b.height ≤ a.height)) :=
  (claim_C6_manifest_order ⟨"v6", "s6", "o6"⟩ ⟨640, 360, 10, 0⟩
    (fun _ => .ok ⟨1, 1⟩) (.ok ()) rfl).1

/-! ## End-to-end scenario (C7) and the error-message invariant (C9) -/

/-- The scenario job of the spec: job v1 with a 1080p source. -/
def v1Job : VideoJob := { videoID := "v1", s3Path := "src.mp4", originalName := "src.mp4" }

/-- Probed metadata of the 1080p source. -/
def md1080 : VideoMetadata := { width := 1920, height := 1080, duration := 60, bitrate := 5000 }

/-- A transcoder oracle for which every rendition succeeds. -/
def tcAllOk : Int → Except String TranscodeArtifacts :=
  fun _ => .ok { segmentCount := 3, totalSize := 100 }

/-- The asset row as the producer created it: status waiting. -/
def v1Initial : Video :=
  { zeroVideo with id := "v1", s3Path := "src.mp4", status := some .waiting }

/-- The fully successful run of the scenario job. -/
def v1Run : List Action × Except String Unit :=
  processVideoStreaming v1Job (.ok md1080) tcAllOk (.ok ())

/-- C7 counterexample: the scenario run creates six rendition rows, not eight —
for a 1080p source both 2160 and 1440 are excluded. -/
theorem claim_C7_counterexample :
    (createdResolutions v1Run.1).length = 6
    ∧ ¬ (createdResolutions v1Run.1).length = 8 := by
  decide

/-- C7 amended: the scenario run walks waiting, processing, completed, creates
exactly six rendition rows with heights 1080 down to 144, writes the manifest
in that descending-bandwidth order, stamps the completion time, leaves no error
message, and returns success. -/
theorem claim_C7_end_to_end :
    v1Initial.status = some .waiting
    ∧ statusWrites v1Run.1 = [.processing, .completed]
    ∧ (createdResolutions v1Run.1).map ResolutionInfo.height
        = [1080, 720, 480, 360, 240, 144]
    ∧ (createdResolutions v1Run.1).length = 6
    ∧ (manifestOf v1Run.1).map (fun l => l.map ResolutionInfo.height)
        = some [1080, 720, 480, 360, 240, 144]
    ∧ (videoAfter v1Initial v1Run.1).status = some .completed
    ∧ (videoAfter v1Initial v1Run.1).completedAt = some ()
    ∧ (videoAfter v1Initial v1Run.1).errorMessage = none
    ∧ v1Run.2 = .ok () := by
  refine ⟨rfl, by decide, by decide, by decide, by decide, by decide, by decide,
    by decide, rfl⟩

/-- The job of the reprocessing scenario for C9. -/
def c9Job : VideoJob := { videoID := "v9", s3Path := "s9.mp4", originalName := "s9" }

/-- The asset row of the reprocessing scenario before any run. -/
def c9Initial : Video :=
  { zeroVideo with id := "v9", s3Path := "s9.mp4", status := some .waiting }

/-- A transcoder oracle for which every rendition succeeds. -/
def c9Tc : Int → Except String TranscodeArtifacts :=
  fun _ => .ok { segmentCount := 2, totalSize := 10 }

/-- First run: the probe fails, so the job fails with an error message. -/
def c9FailRun : List Action × Except String Unit :=
  processVideoStreaming c9Job (.error "ffprobe error: exit status 1") c9Tc (.ok ())

/-- The asset row after the failed run. -/
def c9VFailed : Video := videoAfter c9Initial c9FailRun.1

/-- Retry run after the entry is redelivered: the probe now succeeds and the
whole pipeline completes. -/
def c9RetryRun : List Action × Except String Unit :=
  processVideoStreaming c9Job (.ok { width := 640, height := 360, duration := 10, bitrate := 0 })
    c9Tc (.ok ())

/-- C9: the failed run sets status failed with an error message, but the retry
does not clear it — the processing transition passes ErrorMessage nil inside a
gorm struct Updates, and nil is the zero value, so the column survives: after
the first retry update the row reads processing with the stale error message,
and after the retry completes it reads completed with the stale error message,
violating the claimed equivalence of error_message and the failed status. -/
theorem claim_C9_stale_error_message :
    c9VFailed.status = some .failed
    ∧ c9VFailed.errorMessage = some "ffprobe error: exit status 1"
    ∧ (videoAfter c9VFailed (c9RetryRun.1.take 1)).status = some .processing
    ∧ (videoAfter c9VFailed (c9RetryRun.1.take 1)).errorMessage
        = some "ffprobe error: exit status 1"
    ∧ (videoAfter c9VFailed c9RetryRun.1).status = some .completed
    ∧ (videoAfter c9VFailed c9RetryRun.1).errorMessage
        = some "ffprobe error: exit status 1"
    ∧ c9RetryRun.2 = .ok () := by
  refine ⟨by decide, by decide, by decide, by decide, by decide, by decide, rfl⟩

end VideoProc
